import Mathlib

/-!
Verification development for the AI-vital-monitoring-system repository.

The repository contains two independent pieces that the checked claims are
about: a Go mesh-messenger skeleton (message envelope, node, TCP transport,
peer bookkeeping) and a JavaScript backend utility (`calculateBodyAge`).
Each piece is shallowly embedded below: pure functions become Lean functions,
JavaScript numbers are modelled by exact rationals, Go byte slices by lists
of naturals below 256, and the effectful node lifecycle by an explicit step
function over a state record.
-/

set_option autoImplicit false

namespace Vitals

/-- JavaScript `Math.round`: rounds to the nearest integer, halves toward
positive infinity, i.e. `⌊x + 1/2⌋`. -/
def mathRound (x : ℚ) : ℤ := ⌊x + 1 / 2⌋

/-- Model of `calculateBodyAge` from the backend's body-age estimator utility.
Absent JavaScript arguments are `none`; the falsiness test `!x` on a number
is modelled by the value being `0` (the exact rational model has no `NaN`),
and on a string by the string being empty.  The numeric work
(`height/100`, BMI, the two body-fat formulas, the clamp at `0`, and
`Math.round(x*10)/10`) is carried out over `ℚ`. -/
def calculateBodyAge (age : Option ℚ) (gender : Option String)
    (height weight : Option ℚ) : Option ℚ :=
  match age, gender, height, weight with
  | some a, some g, some h, some w =>
    if a = 0 ∨ g = "" ∨ h = 0 ∨ w = 0 ∨ h ≤ 0 ∨ w ≤ 0 then
      none
    else
      let heightInMeters : ℚ := h / 100
      let bmi : ℚ := w / (heightInMeters * heightInMeters)
      let bodyFat : ℚ :=
        if g.toLower = "male" then 1.20 * bmi + 0.23 * a - 16.2
        else 1.20 * bmi + 0.23 * a - 5.4
      let bodyAgeRaw : ℚ := a + (bodyFat - 18) * 0.5
      let finalBodyAge : ℚ := max 0 bodyAgeRaw
      some ((mathRound (finalBodyAge * 10) : ℚ) / 10)
  | _, _, _, _ => none

end Vitals

namespace Vitals

/-- Claim C9: `calculateBodyAge` returns null whenever any of age, gender,
height, or weight is absent, zero, or otherwise falsy, or when `height ≤ 0`
or `weight ≤ 0`; in particular an age of `0` is rejected. -/
theorem calculateBodyAge_rejects_falsy (age : Option ℚ) (gender : Option String)
    (height weight : Option ℚ)
    (hbad : age = none ∨ age = some 0 ∨ gender = none ∨ gender = some "" ∨
      height = none ∨ weight = none ∨
      (∃ x, height = some x ∧ x ≤ 0) ∨ (∃ x, weight = some x ∧ x ≤ 0)) :
    calculateBodyAge age gender height weight = none := by
  rcases age with _ | a <;> rcases gender with _ | g <;>
    rcases height with _ | h <;> rcases weight with _ | w <;>
    simp only [calculateBodyAge] <;>
    rcases hbad with hb | hb | hb | hb | hb | hb | ⟨x, hx, hxle⟩ | ⟨x, hx, hxle⟩ <;>
    simp_all

/-- Witness for C9 at a concrete input: an age of `0` is rejected even with
otherwise sensible measurements. -/
theorem calculateBodyAge_rejects_falsy_witness :
    calculateBodyAge (some 0) (some "male") (some 170) (some 70) = none :=
  calculateBodyAge_rejects_falsy (some 0) (some "male") (some 170) (some 70)
    (Or.inr (Or.inl rfl))

/-- The reference value of Claim C10: the raw body age
`age + (bodyFat - 18) * 0.5` — with the female body-fat formula used for any
gender whose lowercase form is not `"male"` — clamped at `0` and rounded to
one decimal place. -/
def bodyAgeSpec (a : ℚ) (g : String) (h w : ℚ) : ℚ :=
  let bmi : ℚ := w / ((h / 100) * (h / 100))
  let bodyFat : ℚ :=
    if g.toLower = "male" then 1.20 * bmi + 0.23 * a - 16.2
    else 1.20 * bmi + 0.23 * a - 5.4
  (mathRound (max 0 (a + (bodyFat - 18) * 0.5) * 10) : ℚ) / 10

/-- Claim C10: on every accepted input (all four arguments truthy,
`height > 0`, `weight > 0`) `calculateBodyAge` returns a value; that value is
non-negative and equals the raw body age clamped at `0` and rounded to one
decimal place, with the female formula used for any gender whose lowercase
form is not `"male"`. -/
theorem calculateBodyAge_accepted (a : ℚ) (g : String) (h w : ℚ)
    (ha : a ≠ 0) (hg : g ≠ "") (hh : 0 < h) (hw : 0 < w) :
    calculateBodyAge (some a) (some g) (some h) (some w) =
      some (bodyAgeSpec a g h w) ∧ 0 ≤ bodyAgeSpec a g h w := by
  constructor
  · have hcond : ¬ (a = 0 ∨ g = "" ∨ h = 0 ∨ w = 0 ∨ h ≤ 0 ∨ w ≤ 0) := by
      push_neg
      exact ⟨ha, hg, hh.ne', hw.ne', hh, hw⟩
    simp only [calculateBodyAge, hcond, if_false, bodyAgeSpec]
  · unfold bodyAgeSpec
    have hfloor : (0 : ℤ) ≤ mathRound
        (max 0 (a + ((if g.toLower = "male" then
            1.20 * (w / ((h / 100) * (h / 100))) + 0.23 * a - 16.2
          else 1.20 * (w / ((h / 100) * (h / 100))) + 0.23 * a - 5.4) - 18) * 0.5) * 10) := by
      apply Int.le_floor.mpr
      have h0 : (0 : ℚ) ≤ max 0 (a + ((if g.toLower = "male" then
            1.20 * (w / ((h / 100) * (h / 100))) + 0.23 * a - 16.2
          else 1.20 * (w / ((h / 100) * (h / 100))) + 0.23 * a - 5.4) - 18) * 0.5) :=
        le_max_left 0 _
      push_cast
      nlinarith
    have : (0 : ℚ) ≤ (mathRound (max 0 (a + ((if g.toLower = "male" then
            1.20 * (w / ((h / 100) * (h / 100))) + 0.23 * a - 16.2
          else 1.20 * (w / ((h / 100) * (h / 100))) + 0.23 * a - 5.4) - 18) * 0.5) * 10) : ℚ) := by
      exact_mod_cast hfloor
    linarith

/-- Witness for C10 at a concrete accepted input. -/
theorem calculateBodyAge_accepted_witness :
    calculateBodyAge (some 25) (some "male") (some 170) (some 70) =
      some (bodyAgeSpec 25 "male" 170 70) ∧ 0 ≤ bodyAgeSpec 25 "male" 170 70 :=
  calculateBodyAge_accepted 25 "male" 170 70 (by norm_num) (by decide)
    (by norm_num) (by norm_num)

end Vitals

namespace Mesh

/-- A Go `time.Time` instant, embedded in broken-down UTC form — exactly the
components that `MarshalJSON` serializes through the RFC 3339 layout. -/
structure GoTime where
  year : Nat
  month : Nat
  day : Nat
  hour : Nat
  minute : Nat
  second : Nat
  nanos : Nat
  deriving DecidableEq, Repr

/-- A `GoTime` whose components lie in the ranges a real `time.Time` with a
four-digit year produces (`MarshalJSON` itself rejects years outside
0–9999). -/
def GoTime.Valid (t : GoTime) : Prop :=
  t.year ≤ 9999 ∧ 1 ≤ t.month ∧ t.month ≤ 12 ∧ 1 ≤ t.day ∧ t.day ≤ 31 ∧
    t.hour < 24 ∧ t.minute < 60 ∧ t.second < 60 ∧ t.nanos < 1000000000

instance (t : GoTime) : Decidable t.Valid := by
  unfold GoTime.Valid; infer_instance

/-- `MessageType` from `message/message.go`. -/
inductive MessageType where
  | text
  | status
  | discovery
  deriving DecidableEq, Repr

/-- The wire string of each `MessageType` constant. -/
def MessageType.str : MessageType → String
  | .text => "text"
  | .status => "status"
  | .discovery => "discovery"

/-- `Message` from `message/message.go`.  Go's `[]byte` payload is a list of
naturals below 256, with `none` standing for the nil slice (which
`json.Marshal` serializes as `null`). -/
structure Message where
  id : String
  type : MessageType
  «from» : String
  «to» : String
  timestamp : GoTime
  payload : Option (List Nat)
  deriving DecidableEq, Repr

/-- A message whose timestamp is a valid instant and whose payload bytes are
genuine bytes (< 256). -/
def Message.Valid (m : Message) : Prop :=
  m.timestamp.Valid ∧ ∀ b ∈ (m.payload.getD []), b < 256

/-- UTF-8 encoding of one character, as Go's `[]byte(string)` conversion
produces it. -/
def utf8Char (c : Char) : List Nat :=
  let n := c.toNat
  if n < 128 then [n]
  else if n < 2048 then [192 + n / 64, 128 + n % 64]
  else if n < 65536 then [224 + n / 4096, 128 + n / 64 % 64, 128 + n % 64]
  else [240 + n / 262144, 128 + n / 4096 % 64, 128 + n / 64 % 64, 128 + n % 64]

/-- Go's `[]byte(content)` conversion: the UTF-8 bytes of the string. -/
def utf8Bytes (s : String) : List Nat := (s.data.map utf8Char).flatten

/-- The error vocabulary of the spec's Message Envelope and Node operations,
used to state the claims; the stub code itself never produces
`invalidPayload` or `alreadyStarted`. -/
inductive MeshError where
  | invalidPayload
  | malformedMessage
  | alreadyStarted
  | netClosed
  | bindError
  deriving DecidableEq, Repr

/-- `NewTextMessage` from `message/message.go`.  The current wall-clock value
`time.Now()` is passed in explicitly as `now`; the function always succeeds
and always uses the fixed id `"temp-id"`. -/
def NewTextMessage (fromId toId content : String) (now : GoTime) :
    Except MeshError Message :=
  Except.ok
    { id := "temp-id"
      type := .text
      «from» := fromId
      «to» := toId
      timestamp := now
      payload := some (utf8Bytes content) }

/-- A fixed concrete timestamp used by the concrete witnesses below. -/
def time0 : GoTime :=
  { year := 2024, month := 5, day := 17,
    hour := 12, minute := 30, second := 45, nanos := 500 }

/-- The UTF-8 bytes of a run of `n` copies of `'a'` are `n` bytes long. -/
theorem utf8Bytes_replicate_a (n : Nat) :
    (utf8Bytes (String.mk (List.replicate n 'a'))).length = n := by
  induction n with
  | zero => rfl
  | succ k ih =>
    simpa [utf8Bytes, List.replicate_succ, utf8Char] using ih

end Mesh

namespace Mesh

/-- Claim C2 counterexample: there is no configured maximum payload size at
all — for every candidate bound `maxSize`, some call to `NewTextMessage`
succeeds with a payload strictly longer than `maxSize`, so creation never
fails with `InvalidPayload` on oversize payloads. -/
theorem NewTextMessage_no_size_bound :
    ¬ ∃ maxSize : Nat, ∀ (content : String) (m : Message),
        NewTextMessage "n1" "n2" content time0 = Except.ok m →
        (m.payload.getD []).length ≤ maxSize := by
  rintro ⟨maxSize, hbound⟩
  have h := hbound (String.mk (List.replicate (maxSize + 1) 'a')) _ rfl
  simp only [NewTextMessage, Option.getD_some] at h
  rw [utf8Bytes_replicate_a] at h
  omega

/-- Claim C2 as amended: `NewTextMessage` performs no payload-size check; for
every input — of any size — it succeeds, returning the message with the fixed
id and the UTF-8 bytes of the content as payload. -/
theorem NewTextMessage_always_ok (fromId toId content : String) (now : GoTime) :
    NewTextMessage fromId toId content now = Except.ok
      { id := "temp-id", type := .text, «from» := fromId, «to» := toId,
        timestamp := now, payload := some (utf8Bytes content) } := rfl

/-- Claim C3 counterexample: two distinct messages created by the same
originating node carry the same id, because `NewTextMessage` always assigns
the fixed id `"temp-id"`. -/
theorem NewTextMessage_duplicate_ids :
    ∃ m1 m2 : Message,
      NewTextMessage "n1" "n2" "hello" time0 = Except.ok m1 ∧
      NewTextMessage "n1" "n2" "world" time0 = Except.ok m2 ∧
      m1 ≠ m2 ∧ m1.id = m2.id :=
  ⟨_, _, rfl, rfl, by decide, rfl⟩

/-- Claim C3 as amended: every message created by `NewTextMessage` carries
the fixed id `"temp-id"` (so ids are shared, not unique, across a node's
messages); a created message is an immutable value determined by the call's
arguments. -/
theorem NewTextMessage_id_fixed (fromId toId content : String) (now : GoTime)
    (m : Message) (h : NewTextMessage fromId toId content now = Except.ok m) :
    m.id = "temp-id" := by
  cases h
  rfl

/-- Witness for the amended C3 at a concrete input. -/
theorem NewTextMessage_id_fixed_witness :
    ∃ m : Message, NewTextMessage "n1" "n2" "x" time0 = Except.ok m ∧
      m.id = "temp-id" :=
  ⟨_, rfl, NewTextMessage_id_fixed "n1" "n2" "x" time0 _ rfl⟩

end Mesh

namespace Mesh

/-- One lowercase hex digit, as Go's `encoding/hex` (and its JSON `\u00xx`
escapes) print it: `0`–`9` then `a`–`f`. -/
def hexDig (d : Nat) : Char :=
  if d < 10 then Char.ofNat (48 + d) else Char.ofNat (87 + d)

/-- Go `hex.EncodeToString`: each byte becomes its two lowercase hex
digits. -/
def hexEncode (bs : List Nat) : List Char :=
  (bs.map (fun b => [hexDig (b / 16), hexDig (b % 16)])).flatten

/-- `tcpTransport` from `network/transport.go`.  Its `net.Listener` is
`none` until `Listen` binds it, then `some true` while open and `some false`
once closed. -/
structure TcpTransport where
  addr : String
  listener : Option Bool
  deriving DecidableEq, Repr

/-- `NewTransport` from `network/transport.go`: stores the address, no
listener yet. -/
def NewTransport (addr : String) : TcpTransport :=
  { addr := addr, listener := none }

/-- `tcpTransport.Close`: returns nil when no listener was ever bound,
otherwise delegates to the listener's `Close`.  Go's `net.Listener` reports
an error (`use of closed network connection`) when `Close` is called on an
already-closed listener, which the method forwards unchanged. -/
def TcpTransport.close (t : TcpTransport) : TcpTransport × Option MeshError :=
  match t.listener with
  | none => (t, none)
  | some true => ({ t with listener := some false }, none)
  | some false => (t, some .netClosed)

/-- `Node` from `node/node.go`: id, owned transport, and the peers map
(modelled as an association list from peer id to a connection handle). -/
structure Node where
  ID : String
  transport : TcpTransport
  peers : List (String × Nat)
  deriving DecidableEq, Repr

/-- `NewNode` from `node/node.go`: hex-encodes 16 bytes from `crypto/rand`
(passed in as `entropy`), creates the transport on `":8080"`, and starts with
an empty peers map.  A malformed entropy supply models `rand.Read` failing,
in which case `NewNode` returns its error. -/
def NewNode (entropy : List Nat) : Option Node :=
  if entropy.length = 16 ∧ ∀ b ∈ entropy, b < 256 then
    some { ID := String.mk (hexEncode entropy),
           transport := NewTransport ":8080",
           peers := [] }
  else none

/-- The operations that can hit a live node: `Node.Start` (spawns the listen
goroutine and returns nil), the spawned `Listen` goroutine binding the
listener, `Accept` handing a connection to `handleConn` (which only prints
and closes it), and `Node.Stop` (delegates to `tcpTransport.Close`). -/
inductive NodeOp where
  | start
  | listenBind
  | acceptConn
  | stop
  deriving DecidableEq, Repr

/-- One step of the node's observable behavior: the next state and the error
returned to the caller, following the stub code of `node.go` and
`transport.go`. -/
def Node.step (n : Node) : NodeOp → Node × Option MeshError
  | .start => (n, none)
  | .listenBind =>
    match n.transport.listener with
    | none => ({ n with transport := { n.transport with listener := some true } }, none)
    | some _ => (n, some .bindError)
  | .acceptConn => (n, none)
  | .stop =>
    let r := n.transport.close
    ({ n with transport := r.1 }, r.2)

/-- `n'` is one `Node.step` away from `n`. -/
def Node.stepsTo (n n' : Node) : Prop := ∃ op, n' = (n.step op).1

/-- All states a node can reach from `n0` under any sequence of
operations. -/
def Node.ReachableFrom (n0 n : Node) : Prop :=
  Relation.ReflTransGen Node.stepsTo n0 n

/-- No operation of the stub ever touches the peers map. -/
theorem step_preserves_peers (n : Node) (op : NodeOp) :
    ((n.step op).1).peers = n.peers := by
  cases op <;> simp [Node.step, TcpTransport.close] <;>
    rcases n.transport.listener with _ | _ | _ <;> simp

/-- The node produced by `NewNode` for sixteen zero bytes, used by the
concrete witnesses below. -/
def node0 : Node :=
  { ID := String.mk (hexEncode (List.replicate 16 0)),
    transport := NewTransport ":8080",
    peers := [] }

end Mesh

namespace Mesh

/-- Two hex digits per byte. -/
theorem hexEncode_length (bs : List Nat) : (hexEncode bs).length = 2 * bs.length := by
  induction bs with
  | nil => rfl
  | cons b t ih => simp [hexEncode] at ih ⊢; omega

/-- Every digit emitted for `d < 16` is a lowercase hex character. -/
theorem hexDig_mem (d : Nat) (hd : d < 16) :
    hexDig d ∈ "0123456789abcdef".data := by
  interval_cases d <;> decide

/-- Every character of the hex encoding of genuine bytes is a lowercase hex
character. -/
theorem hexEncode_mem (bs : List Nat) (hb : ∀ b ∈ bs, b < 256) :
    ∀ c ∈ hexEncode bs, c ∈ "0123456789abcdef".data := by
  induction bs with
  | nil => intro c hc; simp [hexEncode] at hc
  | cons b t ih =>
    intro c hc
    have hb0 : b < 256 := hb b (List.mem_cons_self b t)
    have hsplit : c = hexDig (b / 16) ∨ c = hexDig (b % 16) ∨ c ∈ hexEncode t := by
      simpa [hexEncode, List.mem_cons] using hc
    rcases hsplit with hc | hc | hc
    · exact hc ▸ hexDig_mem _ (by omega)
    · exact hc ▸ hexDig_mem _ (by omega)
    · exact ih (fun x hx => hb x (List.mem_cons_of_mem b hx)) c hc

/-- Claim C4: every id a successful `NewNode` call produces is the lowercase
hex encoding of its 16 random bytes: a 32-character hexadecimal string. -/
theorem NewNode_id_hex (entropy : List Nat) (n : Node)
    (h : NewNode entropy = some n) :
    n.ID.length = 32 ∧ ∀ c ∈ n.ID.data, c ∈ "0123456789abcdef".data := by
  unfold NewNode at h
  split at h
  case isFalse => exact absurd h (by simp)
  case isTrue hcond =>
    cases h
    refine ⟨?_, ?_⟩
    · show (String.mk (hexEncode entropy)).length = 32
      simp only [String.length, hexEncode_length, hcond.1]
    · exact hexEncode_mem entropy hcond.2

/-- Witness for C4 at a concrete entropy supply (sixteen zero bytes). -/
theorem NewNode_id_hex_witness :
    node0.ID.length = 32 ∧ ∀ c ∈ node0.ID.data, c ∈ "0123456789abcdef".data :=
  NewNode_id_hex (List.replicate 16 0) node0 (by decide)

/-- Claim C5 counterexample: starting the same node twice reports no error at
all on the second call — in particular not `AlreadyStarted`. -/
theorem start_twice_counterexample :
    ((node0.step .start).1.step .start).2 = none ∧
    ((node0.step .start).1.step .start).2 ≠ some MeshError.alreadyStarted := by
  decide

/-- Claim C5 as amended: `Node.Start` never fails and records no lifecycle
state — it leaves the node unchanged and returns nil, so a second call
succeeds exactly like the first. -/
theorem start_always_ok (n : Node) : n.step .start = (n, none) := rfl

/-- The concrete node `node0` after a start and the spawned goroutine's
listener bind: a running node with an open listener. -/
def node1 : Node := ((node0.step .start).1.step .listenBind).1

/-- Claim C6 counterexample: on a started node whose listener is bound, the
first `Stop` succeeds but the second returns the listener's
already-closed error rather than being an error-free no-op. -/
theorem stop_twice_counterexample :
    ((node1.step .stop).2 = none) ∧
    ((node1.step .stop).1.step .stop).2 = some MeshError.netClosed := by
  decide

/-- Claim C6 as amended: `Node.Stop` simply forwards `tcpTransport.Close`.
Once the listener is bound and open, the first stop succeeds and marks the
listener closed, and a second stop returns the net-closed error; the code
tracks no `Stopped` state of its own. -/
theorem stop_close_behavior (n : Node) (h : n.transport.listener = some true) :
    (n.step .stop).2 = none ∧
    (n.step .stop).1 =
      { n with transport := { n.transport with listener := some false } } ∧
    ((n.step .stop).1.step .stop).2 = some MeshError.netClosed := by
  refine ⟨?_, ?_, ?_⟩ <;> simp [Node.step, TcpTransport.close, h]

/-- Witness for the amended C6 at the concrete bound node `node1`. -/
theorem stop_close_behavior_witness :
    (node1.step .stop).2 = none ∧
    (node1.step .stop).1 =
      { node1 with transport := { node1.transport with listener := some false } } ∧
    ((node1.step .stop).1.step .stop).2 = some MeshError.netClosed :=
  stop_close_behavior node1 (by decide)

/-- Claim C8: peers are never registered — every state reachable from a
freshly created node, under any sequence of start/listen/accept/stop
operations, still has an empty peers map. -/
theorem peers_never_registered (entropy : List Nat) (n0 s : Node)
    (h0 : NewNode entropy = some n0) (hr : Node.ReachableFrom n0 s) :
    s.peers = [] := by
  have hbase : n0.peers = [] := by
    unfold NewNode at h0
    split at h0
    · cases h0; rfl
    · exact absurd h0 (by simp)
  induction hr with
  | refl => exact hbase
  | tail _ hstep ih =>
    rcases hstep with ⟨op, rfl⟩
    rw [step_preserves_peers]
    exact ih

/-- Witness for C8: a concrete node created from sixteen zero bytes, after a
start, a listener bind, an accepted connection and a stop, still has an
empty peers map. -/
theorem peers_never_registered_witness :
    ((((node0.step .start).1.step .listenBind).1.step .acceptConn).1.step .stop).1.peers = [] :=
  peers_never_registered (List.replicate 16 0) node0 _ (by decide)
    (Relation.ReflTransGen.tail (Relation.ReflTransGen.tail
      (Relation.ReflTransGen.tail (Relation.ReflTransGen.tail
        Relation.ReflTransGen.refl ⟨.start, rfl⟩) ⟨.listenBind, rfl⟩)
      ⟨.acceptConn, rfl⟩) ⟨.stop, rfl⟩)

end Mesh

namespace Mesh

/-- Modelled from the spec: the Peer Registry (the repository's code never
implements `register`/`get`; only the empty `peers` map and `Peer` type
exist).  Peers are wired to connection handles (naturals); `closedConns`
records every connection handle that has been closed, since `register`
closes any prior connection for the same id. -/
structure Registry where
  entries : List (String × Nat)
  closedConns : List Nat
  deriving DecidableEq, Repr

/-- Modelled from the spec: `get(id) -> Peer|absent`, here the connection
handle the peer for `id` is wired to. -/
def Registry.get (r : Registry) (id : String) : Option Nat :=
  (r.entries.find? (fun e => e.1 == id)).map Prod.snd

/-- Modelled from the spec: `register(id, connection) -> Peer` — overwrites
and closes any prior connection for the same id (last-writer-wins). -/
def Registry.register (r : Registry) (id : String) (conn : Nat) : Registry :=
  match r.get id with
  | some old =>
    { entries := (id, conn) :: r.entries.eraseP (fun e => e.1 == id),
      closedConns := old :: r.closedConns }
  | none =>
    { entries := (id, conn) :: r.entries, closedConns := r.closedConns }

/-- Registering always leaves the freshly wired connection at the front, so a
lookup of the same id finds it. -/
theorem register_get (r : Registry) (id : String) (conn : Nat) :
    (r.register id conn).get id = some conn := by
  unfold Registry.register
  cases hr : r.get id <;> simp [Registry.get]

/-- Claim C7: `register` is last-writer-wins — after `register(id, c1)` then
`register(id, c2)`, `get(id)` yields the peer wired to `c2`, and the prior
connection `c1` has been closed. -/
theorem register_last_writer_wins (r : Registry) (id : String) (c1 c2 : Nat) :
    ((r.register id c1).register id c2).get id = some c2 ∧
    c1 ∈ ((r.register id c1).register id c2).closedConns := by
  refine ⟨register_get _ id c2, ?_⟩
  have h1 : (r.register id c1).get id = some c1 := register_get r id c1
  generalize hr1 : r.register id c1 = r1 at h1 ⊢
  unfold Registry.register
  rw [h1]
  exact List.mem_cons_self c1 _

end Mesh

namespace Mesh

/-- Escape one character of a JSON string exactly as Go's `encoding/json`
does (HTML escaping on, its default): `"` and `\` get a backslash, `\n`,
`\r`, `\t` their short escapes, other control characters, `<`, `>`, `&`,
U+2028 and U+2029 a lowercase `\uXXXX` escape, and everything else passes
through. -/
def escChar (c : Char) : List Char :=
  if c = '"' then ['\\', '"']
  else if c = '\\' then ['\\', '\\']
  else if c = '\n' then ['\\', 'n']
  else if c = '\r' then ['\\', 'r']
  else if c = '\t' then ['\\', 't']
  else if c.toNat < 32 ∨ c = '<' ∨ c = '>' ∨ c = '&' ∨
      c.toNat = 8232 ∨ c.toNat = 8233 then
    ['\\', 'u', hexDig (c.toNat / 4096), hexDig (c.toNat / 256 % 16),
     hexDig (c.toNat / 16 % 16), hexDig (c.toNat % 16)]
  else [c]

/-- The body of a JSON string: every character escaped. -/
def escString (s : List Char) : List Char := (s.map escChar).flatten

/-- A complete JSON string token, quotes included. -/
def jString (s : String) : List Char := '"' :: (escString s.data ++ ['"'])

/-- The standard base64 alphabet used by Go's `base64.StdEncoding`, which
`json.Marshal` applies to `[]byte` values. -/
def b64Alphabet : List Char :=
  "ABCDEFGHIJKLMNOPQRSTUVWXYZabcdefghijklmnopqrstuvwxyz0123456789+/".data

/-- The base64 character of a sextet. -/
def b64Char (n : Nat) : Char := b64Alphabet.getD n 'A'

/-- Go `base64.StdEncoding` with padding: three bytes become four
characters; a final one or two bytes are padded with `=`. -/
def b64Encode : List Nat → List Char
  | [] => []
  | [a] => [b64Char (a / 4), b64Char (a % 4 * 16), '=', '=']
  | [a, b] => [b64Char (a / 4), b64Char (a % 4 * 16 + b / 16), b64Char (b % 16 * 4), '=']
  | a :: b :: c :: rest =>
    b64Char (a / 4) :: b64Char (a % 4 * 16 + b / 16) ::
      b64Char (b % 16 * 4 + c / 64) :: b64Char (c % 64) :: b64Encode rest

/-- One decimal digit character. -/
def digitChar (d : Nat) : Char := Char.ofNat (48 + d)

/-- The numeric value of a decimal digit character. -/
def digitVal (c : Char) : Nat := c.toNat - 48

/-- A two-digit zero-padded decimal field of the RFC 3339 layout. -/
def pad2 (n : Nat) : List Char := [digitChar (n / 10), digitChar (n % 10)]

/-- The four-digit zero-padded year field of the RFC 3339 layout. -/
def pad4 (n : Nat) : List Char :=
  [digitChar (n / 1000), digitChar (n / 100 % 10),
   digitChar (n / 10 % 10), digitChar (n % 10)]

/-- All nine digits of the nanosecond field, zero-padded. -/
def pad9 (n : Nat) : List Char :=
  [digitChar (n / 100000000), digitChar (n / 10000000 % 10),
   digitChar (n / 1000000 % 10), digitChar (n / 100000 % 10),
   digitChar (n / 10000 % 10), digitChar (n / 1000 % 10),
   digitChar (n / 100 % 10), digitChar (n / 10 % 10), digitChar (n % 10)]

/-- Drop trailing `'0'` characters, as RFC 3339's nanosecond layout
(`.999999999`) trims them. -/
def dropTrailingZeros (l : List Char) : List Char :=
  (l.reverse.dropWhile (· == '0')).reverse

/-- The fractional-second part of the RFC 3339 nanosecond layout: empty for
zero nanoseconds, otherwise a dot followed by the nanosecond digits with
trailing zeros trimmed. -/
def fracChars (ns : Nat) : List Char :=
  if ns = 0 then [] else '.' :: dropTrailingZeros (pad9 ns)

/-- The RFC 3339 nanosecond rendering of a (UTC) `GoTime`, exactly the text
Go's `time.Time.MarshalJSON` places between the quotes. -/
def timeChars (t : GoTime) : List Char :=
  pad4 t.year ++ '-' :: pad2 t.month ++ '-' :: pad2 t.day ++ 'T' :: pad2 t.hour ++
    ':' :: pad2 t.minute ++ ':' :: pad2 t.second ++ fracChars t.nanos ++ ['Z']

/-- `json.Marshal` of the `[]byte` payload: `null` for a nil slice,
otherwise the quoted std-base64 text. -/
def payloadChars : Option (List Nat) → List Char
  | none => "null".data
  | some bs => '"' :: (b64Encode bs ++ ['"'])

/-- `Message.ToJSON` from `message/message.go`: Go's `json.Marshal` of the
`Message` struct.  Fields appear in struct order under their JSON tags;
strings are escaped as `encoding/json` escapes them; the timestamp marshals
through the RFC 3339 nanosecond layout; the payload marshals as standard
base64, or `null` for a nil slice.  The emitted byte stream is represented
by its character sequence (UTF-8 is injective, so nothing is lost at this
level). -/
def Message.ToJSON (m : Message) : List Char :=
  "\x7b\"id\":".data ++ jString m.id ++
    ",\"type\":".data ++ jString m.type.str ++
    ",\"from\":".data ++ jString m.«from» ++
    ",\"to\":".data ++ jString m.«to» ++
    ",\"timestamp\":\"".data ++ timeChars m.timestamp ++
    "\",\"payload\":".data ++ payloadChars m.payload ++ "\x7d".data

end Mesh

namespace Mesh

/-- The value of one hexadecimal digit character (either case), as JSON
`\uXXXX` unescaping reads it. -/
def hexVal (c : Char) : Option Nat :=
  if '0' ≤ c ∧ c ≤ '9' then some (c.toNat - 48)
  else if 'a' ≤ c ∧ c ≤ 'f' then some (c.toNat - 87)
  else if 'A' ≤ c ∧ c ≤ 'F' then some (c.toNat - 55)
  else none

/-- The index of a character in the base64 alphabet. -/
def b64Val (c : Char) : Option Nat :=
  let i := b64Alphabet.indexOf c
  if i < 64 then some i else none

/-- Decode a padded std-base64 text back into bytes. -/
def b64Decode : List Char → Option (List Nat)
  | [] => some []
  | w :: x :: y :: z :: rest =>
    (match b64Val w, b64Val x with
     | some wv, some xv =>
       if z = '=' then
         if rest = [] then
           if y = '=' then
             some [wv * 4 + xv / 16]
           else
             match b64Val y with
             | some yv => some [wv * 4 + xv / 16, xv % 16 * 16 + yv / 4]
             | none => none
         else none
       else
         match b64Val y, b64Val z with
         | some yv, some zv =>
           (b64Decode rest).map
             (fun bs => (wv * 4 + xv / 16) :: (xv % 16 * 16 + yv / 4) ::
               (yv % 4 * 64 + zv) :: bs)
         | _, _ => none
     | _, _ => none)
  | _ => none

/-- Consume an expected literal prefix. -/
def expectLit : List Char → List Char → Option (List Char)
  | [], rest => some rest
  | _ :: _, [] => none
  | p :: ps, c :: cs => if p = c then expectLit ps cs else none

/-- Read the body of a JSON string up to its closing quote, undoing the
escapes `escChar` can emit (plus the other short escapes JSON allows). -/
def parseStrBody : List Char → Option (List Char × List Char)
  | [] => none
  | c :: rest =>
    if c = '"' then some ([], rest)
    else if c = '\\' then
      match rest with
      | [] => none
      | e :: rest2 =>
        if e = '"' then (parseStrBody rest2).map (fun r => ('"' :: r.1, r.2))
        else if e = '\\' then (parseStrBody rest2).map (fun r => ('\\' :: r.1, r.2))
        else if e = 'n' then (parseStrBody rest2).map (fun r => ('\n' :: r.1, r.2))
        else if e = 'r' then (parseStrBody rest2).map (fun r => ('\r' :: r.1, r.2))
        else if e = 't' then (parseStrBody rest2).map (fun r => ('\t' :: r.1, r.2))
        else if e = 'u' then
          match rest2 with
          | h1 :: h2 :: h3 :: h4 :: rest3 =>
            match hexVal h1, hexVal h2, hexVal h3, hexVal h4 with
            | some a, some b, some c3, some d =>
              (parseStrBody rest3).map
                (fun r => (Char.ofNat (a * 4096 + b * 256 + c3 * 16 + d) :: r.1, r.2))
            | _, _, _, _ => none
          | _ => none
        else none
    else (parseStrBody rest).map (fun r => (c :: r.1, r.2))

/-- Parse a complete JSON string token. -/
def parseJString : List Char → Option (String × List Char)
  | '"' :: rest => (parseStrBody rest).map (fun r => (String.mk r.1, r.2))
  | _ => none

/-- Parse a two-digit decimal field. -/
def parse2 : List Char → Option (Nat × List Char)
  | a :: b :: rest =>
    if a.isDigit ∧ b.isDigit then some (digitVal a * 10 + digitVal b, rest)
    else none
  | _ => none

/-- Parse the four-digit year field. -/
def parse4 : List Char → Option (Nat × List Char)
  | a :: b :: c :: d :: rest =>
    if a.isDigit ∧ b.isDigit ∧ c.isDigit ∧ d.isDigit then
      some (digitVal a * 1000 + digitVal b * 100 + digitVal c * 10 + digitVal d, rest)
    else none
  | _ => none

/-- The numeric value of a digit run, most significant first. -/
def digitsVal (l : List Char) : Nat := l.foldl (fun a c => a * 10 + digitVal c) 0

/-- Parse the optional fractional-second field: absent means zero
nanoseconds; present means up to nine digits, implicitly right-padded with
zeros to nanosecond precision. -/
def parseFrac : List Char → Option (Nat × List Char)
  | '.' :: rest =>
    let ds := rest.takeWhile (·.isDigit)
    if ds = [] ∨ 9 < ds.length then none
    else some (digitsVal ds * 10 ^ (9 - ds.length), rest.dropWhile (·.isDigit))
  | rest => some (0, rest)

/-- Parse the RFC 3339 nanosecond layout (UTC), the inverse of
`timeChars`. -/
def parseTime (l : List Char) : Option (GoTime × List Char) := do
  let (y, l) ← parse4 l
  let l ← expectLit ['-'] l
  let (mo, l) ← parse2 l
  let l ← expectLit ['-'] l
  let (d, l) ← parse2 l
  let l ← expectLit ['T'] l
  let (h, l) ← parse2 l
  let l ← expectLit [':'] l
  let (mi, l) ← parse2 l
  let l ← expectLit [':'] l
  let (s, l) ← parse2 l
  let (ns, l) ← parseFrac l
  let l ← expectLit ['Z'] l
  some ({ year := y, month := mo, day := d, hour := h,
          minute := mi, second := s, nanos := ns }, l)

/-- Read raw characters up to the next quote. -/
def readUntilQuote : List Char → Option (List Char × List Char)
  | [] => none
  | c :: rest =>
    if c = '"' then some ([], rest)
    else (readUntilQuote rest).map (fun r => (c :: r.1, r.2))

/-- Parse the payload field: `null` or a quoted base64 text. -/
def parsePayload : List Char → Option (Option (List Nat) × List Char)
  | 'n' :: 'u' :: 'l' :: 'l' :: rest => some (none, rest)
  | '"' :: rest => do
    let (cs, rest2) ← readUntilQuote rest
    let bs ← b64Decode cs
    some (some bs, rest2)
  | _ => none

/-- Map a type tag string back to its `MessageType`. -/
def parseMsgType (s : String) : Option MessageType :=
  if s = "text" then some .text
  else if s = "status" then some .status
  else if s = "discovery" then some .discovery
  else none

/-- The decoder's parsing core: reads one encoded message and returns it
with the unconsumed remainder. -/
def decodeMessageAux (l : List Char) : Option (Message × List Char) := do
  let l ← expectLit "\x7b\"id\":".data l
  let (idv, l) ← parseJString l
  let l ← expectLit ",\"type\":".data l
  let (tys, l) ← parseJString l
  let ty ← parseMsgType tys
  let l ← expectLit ",\"from\":".data l
  let (fr, l) ← parseJString l
  let l ← expectLit ",\"to\":".data l
  let (tov, l) ← parseJString l
  let l ← expectLit ",\"timestamp\":\"".data l
  let (ts, l) ← parseTime l
  let l ← expectLit "\",\"payload\":".data l
  let (pl, l) ← parsePayload l
  let l ← expectLit "\x7d".data l
  some ({ id := idv, type := ty, «from» := fr, «to» := tov,
          timestamp := ts, payload := pl }, l)

/-- Modelled from the spec: `decode(bytes) -> Message`, the inverse of the
envelope encoding, failing with `MalformedMessage` on truncated or invalid
input.  The repository implements only the encoder (`Message.ToJSON`), so
the decoder is built here from the spec's description, as the exact parser
of the encoder's output format. -/
def decodeMessage (l : List Char) : Except MeshError Message :=
  match decodeMessageAux l with
  | some (m, []) => Except.ok m
  | _ => Except.error MeshError.malformedMessage

end Mesh

namespace Mesh

/-- Consuming a literal prefix succeeds and leaves the rest. -/
theorem expectLit_append (p rest : List Char) :
    expectLit p (p ++ rest) = some rest := by
  induction p with
  | nil => rfl
  | cons c cs ih => simp [expectLit, ih]

/-- Consuming a single expected character. -/
theorem expectLit_single (c : Char) (rest : List Char) :
    expectLit [c] (c :: rest) = some rest := by
  simp [expectLit]

/-- Digit characters are digits. -/
theorem digitChar_isDigit : ∀ d < 10, (digitChar d).isDigit = true := by decide

/-- `digitVal` undoes `digitChar`. -/
theorem digitVal_digitChar : ∀ d < 10, digitVal (digitChar d) = d := by decide

/-- Parsing a zero-padded two-digit field returns its value. -/
theorem parse2_pad2 (n : Nat) (rest : List Char) (h : n < 100) :
    parse2 (pad2 n ++ rest) = some (n, rest) := by
  have h1 : n / 10 < 10 := by omega
  have h2 : n % 10 < 10 := Nat.mod_lt _ (by norm_num)
  have hn : n / 10 * 10 + n % 10 = n := by omega
  simp [pad2, parse2, digitChar_isDigit _ h1, digitChar_isDigit _ h2,
    digitVal_digitChar _ h1, digitVal_digitChar _ h2, hn]

/-- Parsing the zero-padded four-digit year field returns its value. -/
theorem parse4_pad4 (n : Nat) (rest : List Char) (h : n < 10000) :
    parse4 (pad4 n ++ rest) = some (n, rest) := by
  have h1 : n / 1000 < 10 := by omega
  have h2 : n / 100 % 10 < 10 := Nat.mod_lt _ (by norm_num)
  have h3 : n / 10 % 10 < 10 := Nat.mod_lt _ (by norm_num)
  have h4 : n % 10 < 10 := Nat.mod_lt _ (by norm_num)
  have hn : n / 1000 * 1000 + n / 100 % 10 * 100 + n / 10 % 10 * 10 + n % 10 = n := by
    omega
  simp [pad4, parse4, digitChar_isDigit _ h1, digitChar_isDigit _ h2,
    digitChar_isDigit _ h3, digitChar_isDigit _ h4,
    digitVal_digitChar _ h1, digitVal_digitChar _ h2,
    digitVal_digitChar _ h3, digitVal_digitChar _ h4, hn]

end Mesh

namespace Mesh

/-- The nine padded digits of a nanosecond count recombine to its value. -/
theorem digitsVal_pad9 (n : Nat) (h : n < 1000000000) :
    digitsVal (pad9 n) = n := by
  have h8 : n / 100000000 < 10 := by omega
  simp only [pad9, digitsVal, List.foldl_cons, List.foldl_nil]
  rw [digitVal_digitChar _ h8, digitVal_digitChar _ (Nat.mod_lt _ (by norm_num)),
    digitVal_digitChar _ (Nat.mod_lt _ (by norm_num)),
    digitVal_digitChar _ (Nat.mod_lt _ (by norm_num)),
    digitVal_digitChar _ (Nat.mod_lt _ (by norm_num)),
    digitVal_digitChar _ (Nat.mod_lt _ (by norm_num)),
    digitVal_digitChar _ (Nat.mod_lt _ (by norm_num)),
    digitVal_digitChar _ (Nat.mod_lt _ (by norm_num)),
    digitVal_digitChar _ (Nat.mod_lt _ (by norm_num))]
  omega

/-- A run of leading zeros, as `takeWhile` collects it, is a replicate. -/
theorem takeWhile_zeros_replicate (r : List Char) :
    r.takeWhile (· == '0') =
      List.replicate (r.takeWhile (· == '0')).length '0' := by
  induction r with
  | nil => rfl
  | cons c t ih =>
    by_cases hc : c = '0'
    · subst hc
      simpa [List.takeWhile_cons, List.replicate_succ] using ih
    · have hcb : (c == '0') = false := by simp [hc]
      simp [List.takeWhile_cons, hcb]

/-- Every list splits as its trailing-zero-trimmed prefix plus a run of
zeros. -/
theorem dropTrailingZeros_spec (l : List Char) :
    ∃ k, l = dropTrailingZeros l ++ List.replicate k '0' ∧
      (dropTrailingZeros l).length + k = l.length := by
  have hsplit : l.reverse.takeWhile (· == '0') ++ l.reverse.dropWhile (· == '0') =
      l.reverse := List.takeWhile_append_dropWhile _ _
  have htwr := takeWhile_zeros_replicate l.reverse
  refine ⟨(l.reverse.takeWhile (· == '0')).length, ?_, ?_⟩
  · calc l = l.reverse.reverse := (List.reverse_reverse l).symm
      _ = (l.reverse.takeWhile (· == '0') ++ l.reverse.dropWhile (· == '0')).reverse := by
          rw [hsplit]
      _ = dropTrailingZeros l ++ (l.reverse.takeWhile (· == '0')).reverse := by
          rw [List.reverse_append]; rfl
      _ = dropTrailingZeros l ++
            List.replicate (l.reverse.takeWhile (· == '0')).length '0' := by
          rw [htwr, List.reverse_replicate, List.length_replicate]
  · have : (dropTrailingZeros l).length = (l.reverse.dropWhile (· == '0')).length := by
      simp [dropTrailingZeros]
    rw [this]
    have hl : (l.reverse.takeWhile (· == '0')).length +
        (l.reverse.dropWhile (· == '0')).length = l.reverse.length := by
      rw [← List.length_append, hsplit]
    simp only [List.length_reverse] at hl
    omega

/-- Appending a run of zeros multiplies a digit run's value by the matching
power of ten. -/
theorem digitsVal_append_zeros (l : List Char) (k : Nat) :
    digitsVal (l ++ List.replicate k '0') = digitsVal l * 10 ^ k := by
  induction k with
  | zero => simp [digitsVal]
  | succ j ih =>
    have hdv : digitVal '0' = 0 := by decide
    have hstep : digitsVal ((l ++ List.replicate j '0') ++ ['0']) =
        digitsVal (l ++ List.replicate j '0') * 10 := by
      simp [digitsVal, List.foldl_append, hdv]
    rw [List.replicate_succ', ← List.append_assoc, hstep, ih, pow_succ, mul_assoc]

/-- Every character of the padded nanosecond field is a digit. -/
theorem pad9_digits (n : Nat) (hn : n < 1000000000) :
    ∀ c ∈ pad9 n, c.isDigit = true := by
  have h8 : n / 100000000 < 10 := by omega
  intro c hc
  simp only [pad9, List.mem_cons, List.not_mem_nil, or_false] at hc
  rcases hc with rfl | rfl | rfl | rfl | rfl | rfl | rfl | rfl | rfl
  · exact digitChar_isDigit _ h8
  all_goals exact digitChar_isDigit _ (Nat.mod_lt _ (by norm_num))

/-- `takeWhile`/`dropWhile` split a digit run followed by `'Z'`. -/
theorem takeWhile_digits_append (ds rest : List Char)
    (h : ∀ c ∈ ds, c.isDigit = true) :
    (ds ++ 'Z' :: rest).takeWhile (·.isDigit) = ds ∧
    (ds ++ 'Z' :: rest).dropWhile (·.isDigit) = 'Z' :: rest := by
  have hz : 'Z'.isDigit = false := by decide
  induction ds with
  | nil => simp [List.takeWhile_cons, List.dropWhile_cons, hz]
  | cons c t ih =>
    have hc : c.isDigit = true := h c (List.mem_cons_self _ _)
    have iht := ih (fun x hx => h x (List.mem_cons_of_mem _ hx))
    simp [List.takeWhile_cons, List.dropWhile_cons, hc, iht.1, iht.2]

/-- Parsing the fractional field undoes `fracChars` (the next character,
`'Z'`, is not a digit, so the digit run ends exactly at the trimmed
digits). -/
theorem parseFrac_fracChars (ns : Nat) (rest : List Char)
    (h : ns < 1000000000) :
    parseFrac (fracChars ns ++ 'Z' :: rest) = some (ns, 'Z' :: rest) := by
  by_cases h0 : ns = 0
  · subst h0
    simp [fracChars, parseFrac]
  · obtain ⟨k, hdec, hlen⟩ := dropTrailingZeros_spec (pad9 ns)
    have hdsdig : ∀ c ∈ dropTrailingZeros (pad9 ns), c.isDigit = true := by
      intro c hc
      apply pad9_digits ns h
      rw [hdec]
      exact List.mem_append_left _ hc
    have hplen : (pad9 ns).length = 9 := rfl
    have hlen9 : (dropTrailingZeros (pad9 ns)).length + k = 9 := by
      rw [← hplen]; exact hlen
    have hne : dropTrailingZeros (pad9 ns) ≠ [] := by
      intro he
      have hz : digitsVal (pad9 ns) = 0 := by
        rw [hdec, he, List.nil_append, ← List.nil_append (List.replicate k '0'),
          digitsVal_append_zeros]
        simp [digitsVal]
      rw [digitsVal_pad9 ns h] at hz
      exact h0 hz
    have hval : digitsVal (dropTrailingZeros (pad9 ns)) * 10 ^ k = ns := by
      have hz := digitsVal_append_zeros (dropTrailingZeros (pad9 ns)) k
      rw [← hdec, digitsVal_pad9 ns h] at hz
      exact hz.symm
    have htw := takeWhile_digits_append (dropTrailingZeros (pad9 ns)) rest hdsdig
    simp only [fracChars, if_neg h0, List.cons_append]
    simp only [parseFrac]
    rw [htw.1, htw.2]
    have hcond : ¬ (dropTrailingZeros (pad9 ns) = [] ∨
        9 < (dropTrailingZeros (pad9 ns)).length) := by
      push_neg
      exact ⟨hne, by omega⟩
    rw [if_neg hcond]
    have hk : 9 - (dropTrailingZeros (pad9 ns)).length = k := by omega
    rw [hk, hval]

end Mesh

namespace Mesh

theorem parseTime_timeChars (t : GoTime) (rest : List Char) (hv : t.Valid) :
    parseTime (timeChars t ++ rest) = some (t, rest) := by
  obtain ⟨hy, hmo1, hmo2, hd1, hd2, hh, hmi, hs, hns⟩ := hv
  simp only [timeChars, List.append_assoc, List.cons_append, List.nil_append]
  unfold parseTime
  rw [parse4_pad4 t.year _ (by omega)]
  simp only [Option.bind_eq_bind, Option.some_bind]
  rw [expectLit_single]
  simp only [Option.some_bind]
  rw [parse2_pad2 t.month _ (by omega)]
  simp only [Option.some_bind]
  rw [expectLit_single]
  simp only [Option.some_bind]
  rw [parse2_pad2 t.day _ (by omega)]
  simp only [Option.some_bind]
  rw [expectLit_single]
  simp only [Option.some_bind]
  rw [parse2_pad2 t.hour _ (by omega)]
  simp only [Option.some_bind]
  rw [expectLit_single]
  simp only [Option.some_bind]
  rw [parse2_pad2 t.minute _ (by omega)]
  simp only [Option.some_bind]
  rw [expectLit_single]
  simp only [Option.some_bind]
  rw [parse2_pad2 t.second _ (by omega)]
  simp only [Option.some_bind]
  rw [parseFrac_fracChars _ _ (by omega)]
  simp only [Option.some_bind]
  rw [expectLit_single]
  simp only [Option.some_bind]

end Mesh

namespace Mesh

/-- `b64Val` undoes `b64Char` on sextets. -/
theorem b64Val_b64Char : ∀ n < 64, b64Val (b64Char n) = some n := by decide

/-- No alphabet character is the padding character. -/
theorem b64Char_ne_pad : ∀ n < 64, b64Char n ≠ '=' := by decide

/-- Decoding undoes the std-base64 encoding of genuine bytes. -/
theorem b64Decode_b64Encode (bs : List Nat) (hb : ∀ b ∈ bs, b < 256) :
    b64Decode (b64Encode bs) = some bs := by
  induction bs using b64Encode.induct with
  | case1 => rfl
  | case2 a =>
    have ha : a < 256 := hb a (by simp)
    have h1 : a / 4 < 64 := by omega
    have h2 : a % 4 * 16 < 64 := by omega
    simp [b64Encode, b64Decode, b64Val_b64Char _ h1, b64Val_b64Char _ h2]
    omega
  | case3 a b =>
    have ha : a < 256 := hb a (by simp)
    have hbb : b < 256 := hb b (by simp)
    have h1 : a / 4 < 64 := by omega
    have h2 : a % 4 * 16 + b / 16 < 64 := by omega
    have h3 : b % 16 * 4 < 64 := by omega
    have hne : b64Char (b % 16 * 4) ≠ '=' := b64Char_ne_pad _ h3
    simp [b64Encode, b64Decode, b64Val_b64Char _ h1, b64Val_b64Char _ h2,
      b64Val_b64Char _ h3, hne]
    omega
  | case4 a b c rest ih =>
    have ha : a < 256 := hb a (by simp)
    have hbb : b < 256 := hb b (by simp)
    have hc : c < 256 := hb c (by simp)
    have ih' := ih (fun x hx => hb x (by simp [hx]))
    have h1 : a / 4 < 64 := by omega
    have h2 : a % 4 * 16 + b / 16 < 64 := by omega
    have h3 : b % 16 * 4 + c / 64 < 64 := by omega
    have h4 : c % 64 < 64 := by omega
    have hne : b64Char (c % 64) ≠ '=' := b64Char_ne_pad _ h4
    simp [b64Encode, b64Decode, b64Val_b64Char _ h1, b64Val_b64Char _ h2,
      b64Val_b64Char _ h3, b64Val_b64Char _ h4, hne, ih']
    omega

/-- No character the base64 encoder can emit is a quote. -/
theorem b64Char_ne_quote (n : Nat) : b64Char n ≠ '"' := by
  by_cases h : n < 64
  · have hall : ∀ m < 64, b64Char m ≠ '"' := by decide
    exact hall n h
  · unfold b64Char
    rw [List.getD_eq_default]
    · decide
    · have hlen : b64Alphabet.length = 64 := by decide
      omega

/-- Every character of an encoded base64 text is an alphabet character or
padding — never a quote. -/
theorem b64Encode_no_quote (bs : List Nat) :
    ∀ c ∈ b64Encode bs, c ≠ '"' := by
  induction bs using b64Encode.induct with
  | case1 => intro c hc; simp [b64Encode] at hc
  | case2 a =>
    intro c hc
    simp only [b64Encode, List.mem_cons, List.not_mem_nil, or_false] at hc
    rcases hc with rfl | rfl | rfl | rfl
    · exact b64Char_ne_quote _
    · exact b64Char_ne_quote _
    all_goals decide
  | case3 a b =>
    intro c hc
    simp only [b64Encode, List.mem_cons, List.not_mem_nil, or_false] at hc
    rcases hc with rfl | rfl | rfl | rfl
    · exact b64Char_ne_quote _
    · exact b64Char_ne_quote _
    · exact b64Char_ne_quote _
    · decide
  | case4 a b c3 rest ih =>
    intro c hc
    simp only [b64Encode, List.mem_cons] at hc
    rcases hc with rfl | rfl | rfl | rfl | hc
    · exact b64Char_ne_quote _
    · exact b64Char_ne_quote _
    · exact b64Char_ne_quote _
    · exact b64Char_ne_quote _
    · exact ih c hc

/-- Reading to the closing quote recovers any quote-free prefix. -/
theorem readUntilQuote_append (pre rest : List Char)
    (h : ∀ c ∈ pre, c ≠ '"') :
    readUntilQuote (pre ++ '"' :: rest) = some (pre, rest) := by
  induction pre with
  | nil => simp [readUntilQuote]
  | cons c t ih =>
    have hc : c ≠ '"' := h c (List.mem_cons_self _ _)
    have iht := ih (fun x hx => h x (List.mem_cons_of_mem _ hx))
    simp [readUntilQuote, hc, iht]

/-- Parsing the payload field undoes its encoding. -/
theorem parsePayload_payloadChars (p : Option (List Nat)) (rest : List Char)
    (hb : ∀ b ∈ p.getD [], b < 256) :
    parsePayload (payloadChars p ++ rest) = some (p, rest) := by
  cases p with
  | none => rfl
  | some bs =>
    simp only [Option.getD_some] at hb
    simp only [payloadChars, List.cons_append, List.append_assoc, List.nil_append]
    simp only [parsePayload, Option.bind_eq_bind]
    rw [readUntilQuote_append _ _ (b64Encode_no_quote bs)]
    simp only [Option.some_bind]
    rw [b64Decode_b64Encode bs hb]
    simp only [Option.some_bind]

end Mesh

namespace Mesh

/-- `hexVal` undoes `hexDig`. -/
theorem hexVal_hexDig : ∀ d < 16, hexVal (hexDig d) = some d := by decide

theorem parseStrBody_escString (s rest : List Char) :
    parseStrBody (escString s ++ '"' :: rest) = some (s, rest) := by
  induction s with
  | nil =>
    simp only [escString, List.map_nil, List.flatten_nil, List.nil_append]
    rw [parseStrBody.eq_def]
    simp
  | cons c t ih =>
    have hsplit : escString (c :: t) = escChar c ++ escString t := by
      simp [escString]
    rw [hsplit, List.append_assoc]
    by_cases h1 : c = '"'
    · subst h1
      have he : escChar '"' = ['\\', '"'] := by decide
      rw [he]
      simp only [List.cons_append, List.nil_append]
      rw [parseStrBody.eq_def]
      simp [ih]
    · by_cases h2 : c = '\\'
      · subst h2
        have he : escChar '\\' = ['\\', '\\'] := by decide
        rw [he]
        simp only [List.cons_append, List.nil_append]
        rw [parseStrBody.eq_def]
        simp [ih]
      · by_cases h3 : c = '\n'
        · subst h3
          have he : escChar '\n' = ['\\', 'n'] := by decide
          rw [he]
          simp only [List.cons_append, List.nil_append]
          rw [parseStrBody.eq_def]
          simp [ih]
        · by_cases h4 : c = '\r'
          · subst h4
            have he : escChar '\r' = ['\\', 'r'] := by decide
            rw [he]
            simp only [List.cons_append, List.nil_append]
            rw [parseStrBody.eq_def]
            simp [ih]
          · by_cases h5 : c = '\t'
            · subst h5
              have he : escChar '\t' = ['\\', 't'] := by decide
              rw [he]
              simp only [List.cons_append, List.nil_append]
              rw [parseStrBody.eq_def]
              simp [ih]
            · by_cases h6 : c.toNat < 32 ∨ c = '<' ∨ c = '>' ∨ c = '&' ∨
                  c.toNat = 8232 ∨ c.toNat = 8233
              · have hlt : c.toNat < 65536 := by
                  rcases h6 with h | rfl | rfl | rfl | h | h
                  · omega
                  · decide
                  · decide
                  · decide
                  · omega
                  · omega
                have e1 : c.toNat / 4096 < 16 := by omega
                have e2 : c.toNat / 256 % 16 < 16 := Nat.mod_lt _ (by norm_num)
                have e3 : c.toNat / 16 % 16 < 16 := Nat.mod_lt _ (by norm_num)
                have e4 : c.toNat % 16 < 16 := Nat.mod_lt _ (by norm_num)
                have hrec : c.toNat / 4096 * 4096 + c.toNat / 256 % 16 * 256 +
                    c.toNat / 16 % 16 * 16 + c.toNat % 16 = c.toNat := by omega
                have he : escChar c = ['\\', 'u', hexDig (c.toNat / 4096),
                    hexDig (c.toNat / 256 % 16), hexDig (c.toNat / 16 % 16),
                    hexDig (c.toNat % 16)] := by
                  simp only [escChar, if_neg h1, if_neg h2, if_neg h3, if_neg h4,
                    if_neg h5, if_pos h6]
                rw [he]
                simp only [List.cons_append, List.nil_append]
                rw [parseStrBody.eq_def]
                simp [hexVal_hexDig _ e1, hexVal_hexDig _ e2, hexVal_hexDig _ e3,
                  hexVal_hexDig _ e4, hrec, Char.ofNat_toNat, ih]
              · have he : escChar c = [c] := by
                  simp only [escChar, if_neg h1, if_neg h2, if_neg h3, if_neg h4,
                    if_neg h5, if_neg h6]
                rw [he]
                simp only [List.cons_append, List.nil_append]
                rw [parseStrBody.eq_def]
                simp [h1, h2, ih]

theorem parseJString_jString (s : String) (rest : List Char) :
    parseJString (jString s ++ rest) = some (s, rest) := by
  simp only [jString, List.cons_append, List.append_assoc, List.nil_append]
  simp only [parseJString]
  rw [parseStrBody_escString]
  rfl

theorem parseMsgType_str (ty : MessageType) : parseMsgType ty.str = some ty := by
  cases ty <;> rfl


/-- Consuming one expected character of a literal. -/
theorem expectLit_cons (c : Char) (p l : List Char) :
    expectLit (c :: p) (c :: l) = expectLit p l := by
  simp [expectLit]

theorem expectLit_nil (l : List Char) : expectLit [] l = some l := rfl

set_option maxHeartbeats 2000000 in
theorem decodeAux_ToJSON (m : Message) (hv : m.Valid) (rest : List Char) :
    decodeMessageAux (m.ToJSON ++ rest) = some (m, rest) := by
  obtain ⟨htime, hbytes⟩ := hv
  simp only [Message.ToJSON, List.append_assoc, List.cons_append, List.nil_append]
  simp only [decodeMessageAux, Option.bind_eq_bind]
  simp only [expectLit_cons, expectLit_nil, Option.some_bind]
  rw [parseJString_jString]
  simp only [Option.some_bind, expectLit_cons, expectLit_nil]
  rw [parseJString_jString]
  simp only [Option.some_bind, expectLit_cons, expectLit_nil]
  rw [parseMsgType_str]
  simp only [Option.some_bind, expectLit_cons, expectLit_nil]
  rw [parseJString_jString]
  simp only [Option.some_bind, expectLit_cons, expectLit_nil]
  rw [parseJString_jString]
  simp only [Option.some_bind, expectLit_cons, expectLit_nil]
  rw [parseTime_timeChars _ _ htime]
  simp only [Option.some_bind, expectLit_cons, expectLit_nil]
  rw [parsePayload_payloadChars _ _ hbytes]
  simp only [Option.some_bind, expectLit_cons, expectLit_nil]

/-- Claim C1: for every valid message, decoding the bytes produced by the
envelope encoding (the code's `ToJSON`) yields the message again:
`decode(encode(m)) = m`. -/
theorem decode_encode_roundtrip (m : Message) (hv : m.Valid) :
    decodeMessage m.ToJSON = Except.ok m := by
  unfold decodeMessage
  have h := decodeAux_ToJSON m hv []
  rw [List.append_nil] at h
  rw [h]

instance (m : Message) : Decidable m.Valid := by
  unfold Message.Valid; infer_instance

/-- A concrete valid message exercising the round trip. -/
def msgC1 : Message :=
  { id := "temp-id", type := .text, «from» := "node-a", «to» := "node-b",
    timestamp := time0, payload := some [72, 105] }

/-- Witness for C1 at the concrete message `msgC1`. -/
theorem decode_encode_roundtrip_witness :
    decodeMessage msgC1.ToJSON = Except.ok msgC1 :=
  decode_encode_roundtrip msgC1 (by decide)

end Mesh
